import Mathlib

/-!
# Verification of the Monte Carlo OLS simulation (`src/monte.py`)

A shallow embedding of the three core functions of `monte.py`:

* `generate_data` — draws `n` uniform x values and `n` normal noise values from
  a shared pseudorandom source and forms `y = beta_0 + beta_1 * x + error`;
* `simple_linear_regression` — the closed-form univariate OLS fit;
* `monte_carlo_simulation` — repeats generate-then-fit for a fixed trial count,
  collecting intercept and slope estimates in trial order.

Numbers are modelled as rationals (exact arithmetic; the spec's claims are
stated "in exact arithmetic" / "up to floating-point rounding", which exact
rationals realise).  Division in ℚ is total with `q / 0 = 0`, so the
division-by-zero degeneracy of the estimator shows up as a zero denominator,
which is reasoned about explicitly.

The shared pseudorandom source (`np.random`) is modelled as an infinite stream
`g : Nat → ℚ` of raw draws together with a position counter that every draw
advances: the k-th value of `np.random.uniform(0, 10, n)` is `10 * g (pos + k)`
(location 0, scale 10 applied to a raw unit draw), and the k-th value of
`np.random.normal(0, noise_std, n)` is `noise_std * g (pos + k)` (location 0,
scale `noise_std` applied to a raw standard draw; in particular a zero standard
deviation yields exactly zero noise, as in numpy).  Each function returns the
advanced position, making the consumption of entropy explicit.
-/

namespace Monte

/-- `np.mean`: sum divided by length (the empty list gives `0 / 0 = 0` in ℚ). -/
def mean (xs : List ℚ) : ℚ := xs.sum / xs.length

/-- `np.random.uniform(0, 10, n)` drawn from the shared stream `g` starting at
position `pos`: the i-th draw is the raw unit draw `g (pos + i)` scaled to
`[0, 10)`. -/
def uniformDraws (g : Nat → ℚ) (pos n : Nat) : List ℚ :=
  (List.range n).map (fun i => 10 * g (pos + i))

/-- `np.random.normal(0, noise_std, n)` drawn from the shared stream `g`
starting at position `pos`: the i-th draw is the raw standard draw
`g (pos + i)` scaled by `noise_std`. -/
def normalDraws (g : Nat → ℚ) (pos n : Nat) (noise_std : ℚ) : List ℚ :=
  (List.range n).map (fun i => noise_std * g (pos + i))

/-- `generate_data(n, beta_0, beta_1, noise_std)` from `src/monte.py`:
`x = np.random.uniform(0, 10, n)`, `error = np.random.normal(0, noise_std, n)`,
`y = beta_0 + beta_1 * x + error` (vectorised, i.e. elementwise), returning
`(x, y)` together with the advanced stream position (`2 * n` draws consumed). -/
def generate_data (g : Nat → ℚ) (pos : Nat) (n : Nat) (beta_0 beta_1 noise_std : ℚ) :
    List ℚ × List ℚ × Nat :=
  let x := uniformDraws g pos n
  let error := normalDraws g (pos + n) n noise_std
  let y := List.zipWith (fun xi ei => beta_0 + beta_1 * xi + ei) x error
  (x, y, pos + n + n)

/-- `simple_linear_regression(x, y)` from `src/monte.py`:
`beta_1 = np.sum((x - x_mean) * (y - y_mean)) / np.sum((x - x_mean) ** 2)`,
`beta_0 = y_mean - beta_1 * x_mean`, returned as `(beta_0, beta_1)`. -/
def simple_linear_regression (x y : List ℚ) : ℚ × ℚ :=
  let x_mean := mean x
  let y_mean := mean y
  let beta_1 := (List.zipWith (fun a b => (a - x_mean) * (b - y_mean)) x y).sum /
      (x.map (fun a => (a - x_mean) ^ 2)).sum
  let beta_0 := y_mean - beta_1 * x_mean
  (beta_0, beta_1)

/-- `monte_carlo_simulation(num_simulations, n, beta_0, beta_1, noise_std)` from
`src/monte.py`: for each of `num_simulations` trials, generate a sample, fit it,
and append the intercept and slope estimates to their respective lists in trial
order; the advanced stream position is returned alongside the two lists. -/
def monte_carlo_simulation (g : Nat → ℚ) (pos : Nat) (num_simulations n : Nat)
    (beta_0 beta_1 noise_std : ℚ) : List ℚ × List ℚ × Nat :=
  match num_simulations with
  | 0 => ([], [], pos)
  | Nat.succ k =>
      let s := generate_data g pos n beta_0 beta_1 noise_std
      let est := simple_linear_regression s.1 s.2.1
      let rest := monte_carlo_simulation g s.2.2 k n beta_0 beta_1 noise_std
      (est.1 :: rest.1, est.2 :: rest.2.1, rest.2.2)

/-- The OLS numerator `np.sum((x - x_mean) * (y - y_mean))`. -/
def sXY (x y : List ℚ) : ℚ :=
  (List.zipWith (fun a b => (a - mean x) * (b - mean y)) x y).sum

/-- The OLS denominator `np.sum((x - x_mean) ** 2)`. -/
def sXX (x : List ℚ) : ℚ :=
  (x.map (fun a => (a - mean x) ^ 2)).sum

/-- The x values of a list are not all identical: it holds two distinct
members. -/
def notAllEq (x : List ℚ) : Prop := ∃ a ∈ x, ∃ b ∈ x, a ≠ b

/-- Zipping two maps over the same index list is a single map. -/
lemma zipWith_map_same {α β γ δ : Type} (f : β → γ → δ) (p : α → β) (q : α → γ) :
    ∀ l : List α, List.zipWith f (l.map p) (l.map q) = l.map (fun a => f (p a) (q a)) := by
  intro l
  induction l with
  | nil => rfl
  | cons h t ih => simp [ih]

/-- The y list produced by `generate_data` as a single map over the index
range. -/
lemma generate_data_snd (g : Nat → ℚ) (pos n : Nat) (b0 b1 s : ℚ) :
    (generate_data g pos n b0 b1 s).2.1 =
      (List.range n).map (fun i => b0 + b1 * (10 * g (pos + i)) + s * g (pos + n + i)) := by
  simp only [generate_data, uniformDraws, normalDraws, zipWith_map_same]

/-- A list of nonnegative rationals summing to zero is all zeros. -/
lemma all_zero_of_sum_nonneg_eq_zero :
    ∀ {l : List ℚ}, (∀ a ∈ l, 0 ≤ a) → l.sum = 0 → ∀ a ∈ l, a = 0 := by
  intro l
  induction l with
  | nil => simp
  | cons h t ih =>
      intro h0 hs
      have hh : 0 ≤ h := h0 h (by simp)
      have ht : 0 ≤ t.sum := List.sum_nonneg (fun a ha => h0 a (by simp [ha]))
      have hsum : h + t.sum = 0 := by simpa using hs
      have hh0 : h = 0 := by linarith
      have hts : t.sum = 0 := by linarith
      intro a ha
      rcases List.mem_cons.mp ha with rfl | ha
      · exact hh0
      · exact ih (fun b hb => h0 b (by simp [hb])) hts a ha

/-- The sum of a constant list. -/
lemma sum_of_all_eq : ∀ {x : List ℚ} {c : ℚ}, (∀ a ∈ x, a = c) → x.sum = x.length * c := by
  intro x
  induction x with
  | nil => simp
  | cons a t ih =>
      intro c h
      have ha : a = c := h a (by simp)
      have ht := ih (fun b hb => h b (by simp [hb]))
      simp only [List.sum_cons, List.length_cons, ha, ht]
      push_cast
      ring

/-- If x holds two distinct values, the OLS denominator is nonzero. -/
lemma sXX_ne_zero {x : List ℚ} (hx : notAllEq x) : sXX x ≠ 0 := by
  intro h0
  obtain ⟨a, ha, b, hb, hab⟩ := hx
  have hall : ∀ t ∈ x.map (fun a => (a - mean x) ^ 2), t = 0 :=
    all_zero_of_sum_nonneg_eq_zero
      (by
        intro t ht
        obtain ⟨u, _, rfl⟩ := List.mem_map.mp ht
        exact sq_nonneg _)
      h0
  have haz : (a - mean x) ^ 2 = 0 := hall _ (List.mem_map_of_mem _ ha)
  have hbz : (b - mean x) ^ 2 = 0 := hall _ (List.mem_map_of_mem _ hb)
  have ha' : a = mean x := by
    have := sq_eq_zero_iff.mp haz
    linarith
  have hb' : b = mean x := by
    have := sq_eq_zero_iff.mp hbz
    linarith
  exact hab (ha'.trans hb'.symm)

/-- If all x values are identical (and x is nonempty), the OLS denominator is
zero. -/
lemma sXX_eq_zero_of_all_eq {x : List ℚ} (hne : x ≠ [])
    (h : ∀ a ∈ x, ∀ b ∈ x, a = b) : sXX x = 0 := by
  obtain ⟨c, hc⟩ : ∃ c, ∀ a ∈ x, a = c := by
    cases x with
    | nil => exact absurd rfl hne
    | cons a t => exact ⟨a, fun b hb => h b hb a (by simp)⟩
  have hl : (x.length : ℚ) ≠ 0 :=
    Nat.cast_ne_zero.mpr (fun h => hne (List.length_eq_zero.mp h))
  have hmean : mean x = c := by
    unfold mean
    rw [sum_of_all_eq hc]
    field_simp
  apply List.sum_eq_zero
  intro t ht
  obtain ⟨a, ha, rfl⟩ := List.mem_map.mp ht
  rw [hc a ha, hmean]
  ring

/-- Zipping a binary function along a list with itself is a map. -/
lemma zipWith_self {α δ : Type} (f : α → α → δ) (l : List α) :
    List.zipWith f l l = l.map (fun a => f a a) := by
  induction l with
  | nil => rfl
  | cons h t ih => simp [ih]

/-- Summing an affine image of a list. -/
lemma sum_map_affine (x : List ℚ) (b m : ℚ) :
    (x.map (fun a => b + m * a)).sum = x.length * b + m * x.sum := by
  induction x with
  | nil => simp
  | cons a t ih =>
      simp only [List.map_cons, List.sum_cons, List.length_cons, ih]
      push_cast
      ring

/-- The mean of an affine image of a nonempty list. -/
lemma mean_map_affine {x : List ℚ} (hne : x ≠ []) (b m : ℚ) :
    mean (x.map (fun a => b + m * a)) = b + m * mean x := by
  have hl : (x.length : ℚ) ≠ 0 :=
    Nat.cast_ne_zero.mpr (fun h => hne (List.length_eq_zero.mp h))
  unfold mean
  rw [List.length_map, sum_map_affine]
  field_simp
  ring

/-- Fitting a sample that lies exactly on the line `a ↦ b + m * a` recovers
the intercept b and the slope m, provided x has two distinct values. -/
lemma fit_affine {x : List ℚ} (b m : ℚ) (hx : notAllEq x) :
    simple_linear_regression x (x.map (fun a => b + m * a)) = (b, m) := by
  have hne : x ≠ [] := by
    obtain ⟨a, ha, _⟩ := hx
    exact List.ne_nil_of_mem ha
  have hm : mean (x.map fun a => b + m * a) = b + m * mean x := mean_map_affine hne b m
  have hden : sXX x ≠ 0 := sXX_ne_zero hx
  simp only [simple_linear_regression]
  rw [hm, List.zipWith_map_right, zipWith_self]
  have hmap : (x.map fun a => (a - mean x) * (b + m * a - (b + m * mean x)))
      = x.map fun a => m * (a - mean x) ^ 2 :=
    List.map_congr_left (fun a _ => by ring)
  rw [hmap, List.sum_map_mul_left]
  have hsXX : (x.map fun a => (a - mean x) ^ 2).sum = sXX x := rfl
  rw [hsXX, mul_div_assoc, div_self hden, mul_one]
  exact Prod.ext (by ring) rfl

/--
C1: For every sample (x, y) of equal length n ≥ 1 whose x values are not all
identical, `simple_linear_regression` returns the slope
`sum((x_i - xMean) * (y_i - yMean)) / sum((x_i - xMean)^2)` and the intercept
`yMean - slopeHat * xMean`, where `xMean` and `yMean` are the arithmetic means.
-/
theorem fit_closed_form (x y : List ℚ) (hlen : x.length = y.length)
    (hn : 1 ≤ x.length) (hx : notAllEq x) :
    simple_linear_regression x y =
      (mean y - (sXY x y / sXX x) * mean x, sXY x y / sXX x) := rfl

/-- Witness for C1 at the concrete sample x = [1, 2], y = [2, 4]. -/
theorem fit_closed_form_witness :
    ([1, 2] : List ℚ).length = ([2, 4] : List ℚ).length ∧
      1 ≤ ([1, 2] : List ℚ).length ∧ notAllEq [1, 2] ∧
      simple_linear_regression [1, 2] [2, 4] =
        (mean [2, 4] - (sXY [1, 2] [2, 4] / sXX [1, 2]) * mean [1, 2],
          sXY [1, 2] [2, 4] / sXX [1, 2]) :=
  ⟨rfl, by norm_num, ⟨1, by norm_num, 2, by norm_num, by norm_num⟩,
    fit_closed_form [1, 2] [2, 4] rfl (by norm_num)
      ⟨1, by norm_num, 2, by norm_num, by norm_num⟩⟩

/--
C3: For every n ≥ 1 and all model parameters, `generate_data` returns x and y
of equal length n, with `y[i] = intercept + slope * x[i] + noise[i]` for each
index i, where `noise[i]` is the i-th drawn noise value.
-/
theorem generate_data_spec (g : Nat → ℚ) (pos n : Nat) (b0 b1 s : ℚ) (hn : 1 ≤ n) :
    (generate_data g pos n b0 b1 s).1.length = n ∧
    (generate_data g pos n b0 b1 s).2.1.length = n ∧
    ∀ i, i < n →
      (generate_data g pos n b0 b1 s).1[i]? = some (10 * g (pos + i)) ∧
      (normalDraws g (pos + n) n s)[i]? = some (s * g (pos + n + i)) ∧
      (generate_data g pos n b0 b1 s).2.1[i]? =
        some (b0 + b1 * (10 * g (pos + i)) + s * g (pos + n + i)) := by
  refine ⟨by simp [generate_data, uniformDraws], ?_, ?_⟩
  · rw [generate_data_snd]
    simp
  · intro i hi
    rw [generate_data_snd]
    simp only [generate_data, uniformDraws, normalDraws]
    simp [List.getElem?_map, List.getElem?_range hi]

/-- Witness for C3 at n = 2 with the stream g i = i. -/
theorem generate_data_spec_witness :
    1 ≤ 2 ∧
      ((generate_data (fun i => (i : ℚ)) 0 2 3 5 7).1.length = 2 ∧
        (generate_data (fun i => (i : ℚ)) 0 2 3 5 7).2.1.length = 2 ∧
        ∀ i, i < 2 →
          (generate_data (fun i => (i : ℚ)) 0 2 3 5 7).1[i]? =
            some (10 * ((0 + i : Nat) : ℚ)) ∧
          (normalDraws (fun i => (i : ℚ)) (0 + 2) 2 7)[i]? =
            some (7 * ((0 + 2 + i : Nat) : ℚ)) ∧
          (generate_data (fun i => (i : ℚ)) 0 2 3 5 7).2.1[i]? =
            some (3 + 5 * (10 * ((0 + i : Nat) : ℚ)) + 7 * ((0 + 2 + i : Nat) : ℚ))) :=
  ⟨by norm_num, generate_data_spec (fun i => (i : ℚ)) 0 2 3 5 7 (by norm_num)⟩

/--
C10: When the trial count is 0, `monte_carlo_simulation` raises no error and
returns two empty sequences, performing zero trials and drawing no random
values (the stream position is returned unchanged).
-/
theorem run_zero_trials (g : Nat → ℚ) (pos n : Nat) (b0 b1 s : ℚ) :
    monte_carlo_simulation g pos 0 n b0 b1 s = ([], [], pos) := rfl

/--
C4 (divergence witness): `monte_carlo_simulation` performs no input
validation: with n = 1 and one trial it enters the loop and returns two
length-1 estimate lists instead of rejecting the degenerate sample size, and
the single generated sample has a zero OLS denominator.
-/
theorem run_n_one_executes (g : Nat → ℚ) (pos : Nat) (b0 b1 s : ℚ) :
    (monte_carlo_simulation g pos 1 1 b0 b1 s).1.length = 1 ∧
    (monte_carlo_simulation g pos 1 1 b0 b1 s).2.1.length = 1 ∧
    sXX (generate_data g pos 1 b0 b1 s).1 = 0 := by
  refine ⟨rfl, rfl, ?_⟩
  simp [sXX, generate_data, uniformDraws, mean, List.range_succ]

/--
C7: Determinism of the run: two invocations of `monte_carlo_simulation` with
the same seed (pointwise-equal raw-draw streams) and the same parameters yield
identical output sequences.
-/
theorem run_deterministic (g1 g2 : Nat → ℚ) (pos N n : Nat) (b0 b1 s : ℚ)
    (h : ∀ i, g1 i = g2 i) :
    monte_carlo_simulation g1 pos N n b0 b1 s =
      monte_carlo_simulation g2 pos N n b0 b1 s := by
  have hg : g1 = g2 := funext h
  rw [hg]

/-- Witness for C7 with two syntactically different but pointwise-equal
streams. -/
theorem run_deterministic_witness :
    monte_carlo_simulation (fun i => (i : ℚ)) 0 2 2 1 1 1 =
      monte_carlo_simulation (fun i => (i : ℚ) + 0) 0 2 2 1 1 1 :=
  run_deterministic (fun i => (i : ℚ)) (fun i => (i : ℚ) + 0) 0 2 2 1 1 1
    (fun i => by norm_num)

/--
C8: At the concrete sample x = [1, 2, 3], y = [2, 4, 6],
`simple_linear_regression` returns the intercept 0 and the slope 2 exactly.
-/
theorem fit_example :
    simple_linear_regression [1, 2, 3] [2, 4, 6] = (0, 2) := by
  norm_num [simple_linear_regression, mean]

/--
C6: For every sample whose x values are not all identical, the OLS denominator
`sum((x_i - xMean)^2)` is nonzero; for every nonempty sample whose x values are
all identical it is zero; and `simple_linear_regression` always computes the
slope as the unguarded quotient `sXY / sXX` (no branch protects against the
zero denominator).
-/
theorem fit_denominator (x : List ℚ) :
    (notAllEq x → sXX x ≠ 0) ∧
    (x ≠ [] → (∀ a ∈ x, ∀ b ∈ x, a = b) → sXX x = 0) ∧
    (∀ y : List ℚ, (simple_linear_regression x y).2 = sXY x y / sXX x) :=
  ⟨sXX_ne_zero, sXX_eq_zero_of_all_eq, fun _ => rfl⟩

/-- Witness for C6 at x = [1, 2] (distinct values) and x = [2, 2] (identical
values). -/
theorem fit_denominator_witness :
    sXX [1, 2] ≠ 0 ∧ sXX [2, 2] = 0 ∧
      (simple_linear_regression [1, 2] [3, 4]).2 = sXY [1, 2] [3, 4] / sXX [1, 2] :=
  ⟨(fit_denominator [1, 2]).1 ⟨1, by norm_num, 2, by norm_num, by norm_num⟩,
    (fit_denominator [2, 2]).2.1 (by simp)
      (by
        intro a ha b hb
        rcases List.mem_cons.mp ha with rfl | ha' <;>
          rcases List.mem_cons.mp hb with rfl | hb' <;>
            simp_all),
    (fit_denominator [1, 2]).2.2 [3, 4]⟩

/--
C5: With zero noise standard deviation, fitting the sample produced by
`generate_data` recovers the true parameters exactly, provided the generated x
values are not all identical.
-/
theorem zero_noise_roundtrip (g : Nat → ℚ) (pos n : Nat) (b0 b1 : ℚ)
    (hx : notAllEq (generate_data g pos n b0 b1 0).1) :
    simple_linear_regression (generate_data g pos n b0 b1 0).1
      (generate_data g pos n b0 b1 0).2.1 = (b0, b1) := by
  have hy : (generate_data g pos n b0 b1 0).2.1
      = (generate_data g pos n b0 b1 0).1.map (fun a => b0 + b1 * a) := by
    rw [generate_data_snd]
    simp only [generate_data, uniformDraws, List.map_map]
    apply List.map_congr_left
    intro i _
    simp [Function.comp]
  rw [hy]
  exact fit_affine b0 b1 hx

/-- Witness for C5: one zero-noise trial with the stream g i = i, n = 2,
intercept 5, slope 7. -/
theorem zero_noise_roundtrip_witness :
    notAllEq (generate_data (fun i => (i : ℚ)) 0 2 5 7 0).1 ∧
      simple_linear_regression (generate_data (fun i => (i : ℚ)) 0 2 5 7 0).1
        (generate_data (fun i => (i : ℚ)) 0 2 5 7 0).2.1 = (5, 7) := by
  have hx : notAllEq (generate_data (fun i => (i : ℚ)) 0 2 5 7 0).1 := by
    refine ⟨0, ?_, 10, ?_, by norm_num⟩ <;>
      norm_num [generate_data, uniformDraws, List.range_succ]
  exact ⟨hx, zero_noise_roundtrip (fun i => (i : ℚ)) 0 2 5 7 hx⟩

/--
C9: Translation equivariance in y: adding a constant c to every y value leaves
the fitted slope unchanged and shifts the fitted intercept by exactly c.
-/
theorem fit_translation (x y : List ℚ) (c : ℚ) (hlen : x.length = y.length)
    (hx : notAllEq x) :
    simple_linear_regression x (y.map (fun b => b + c)) =
      ((simple_linear_regression x y).1 + c, (simple_linear_regression x y).2) := by
  have hne : x ≠ [] := by
    obtain ⟨a, ha, _⟩ := hx
    exact List.ne_nil_of_mem ha
  have hyne : y ≠ [] := by
    intro h
    subst h
    exact hne (List.length_eq_zero.mp (by simpa using hlen))
  have hly : (y.length : ℚ) ≠ 0 :=
    Nat.cast_ne_zero.mpr (fun h => hyne (List.length_eq_zero.mp h))
  have hmy : mean (y.map (fun b => b + c)) = mean y + c := by
    have h1 : (y.map (fun b => b + c)) = y.map (fun b => c + 1 * b) :=
      List.map_congr_left (fun b _ => by ring)
    unfold mean
    rw [h1, List.length_map, sum_map_affine]
    field_simp
    ring
  simp only [simple_linear_regression]
  rw [hmy, List.zipWith_map_right]
  have hf : (fun (a b : ℚ) => (a - mean x) * (b + c - (mean y + c)))
      = fun a b => (a - mean x) * (b - mean y) := by
    funext a b
    ring
  rw [hf]
  exact Prod.ext (by ring) rfl

/-- Witness for C9 at x = [1, 2], y = [3, 5], c = 10. -/
theorem fit_translation_witness :
    ([1, 2] : List ℚ).length = ([3, 5] : List ℚ).length ∧ notAllEq [1, 2] ∧
      simple_linear_regression [1, 2] (([3, 5] : List ℚ).map (fun b => b + 10)) =
        ((simple_linear_regression [1, 2] [3, 5]).1 + 10,
          (simple_linear_regression [1, 2] [3, 5]).2) :=
  ⟨rfl, ⟨1, by norm_num, 2, by norm_num, by norm_num⟩,
    fit_translation [1, 2] [3, 5] 10 rfl ⟨1, by norm_num, 2, by norm_num, by norm_num⟩⟩

/-- Closed form of the simulation loop: the i-th trial (0-based) fits the
sample generated at stream position `pos + (n + n) * i`, each trial consuming
`2 * n` draws, and the estimates are collected in trial order. -/
lemma monte_carlo_simulation_eq (g : Nat → ℚ) (n : Nat) (b0 b1 s : ℚ) :
    ∀ (N pos : Nat),
      monte_carlo_simulation g pos N n b0 b1 s =
        ((List.range N).map (fun i =>
            (simple_linear_regression (generate_data g (pos + (n + n) * i) n b0 b1 s).1
              (generate_data g (pos + (n + n) * i) n b0 b1 s).2.1).1),
          (List.range N).map (fun i =>
            (simple_linear_regression (generate_data g (pos + (n + n) * i) n b0 b1 s).1
              (generate_data g (pos + (n + n) * i) n b0 b1 s).2.1).2),
          pos + (n + n) * N) := by
  intro N
  induction N with
  | zero =>
      intro pos
      simp [monte_carlo_simulation]
  | succ k ih =>
      intro pos
      show (let s' := generate_data g pos n b0 b1 s
            let est := simple_linear_regression s'.1 s'.2.1
            let rest := monte_carlo_simulation g s'.2.2 k n b0 b1 s
            (est.1 :: rest.1, est.2 :: rest.2.1, rest.2.2)) = _
      simp only [generate_data]
      rw [ih (pos + n + n)]
      rw [List.range_succ_eq_map, List.map_cons, List.map_cons, List.map_map, List.map_map]
      simp only [Prod.mk.injEq]
      refine ⟨?_, ?_, by ring⟩ <;>
        · refine congrArg₂ _ ?_ (List.map_congr_left ?_)
          · simp [generate_data]
          · intro i _
            simp only [Function.comp, Nat.succ_eq_add_one]
            have hp : pos + (n + n) * (i + 1) = pos + n + n + (n + n) * i := by ring
            rw [hp]
            rfl

/--
C2: For every trial count N > 0 and sample size n > 1,
`monte_carlo_simulation` returns two sequences of length exactly N, and the
i-th element of each is the corresponding coefficient fitted from the i-th
generated sample, in trial order.
-/
theorem run_trial_order (g : Nat → ℚ) (pos N n : Nat) (b0 b1 s : ℚ)
    (hN : 0 < N) (hn : 1 < n) :
    (monte_carlo_simulation g pos N n b0 b1 s).1.length = N ∧
    (monte_carlo_simulation g pos N n b0 b1 s).2.1.length = N ∧
    ∀ i, i < N →
      (monte_carlo_simulation g pos N n b0 b1 s).1[i]? =
        some ((simple_linear_regression (generate_data g (pos + (n + n) * i) n b0 b1 s).1
          (generate_data g (pos + (n + n) * i) n b0 b1 s).2.1).1) ∧
      (monte_carlo_simulation g pos N n b0 b1 s).2.1[i]? =
        some ((simple_linear_regression (generate_data g (pos + (n + n) * i) n b0 b1 s).1
          (generate_data g (pos + (n + n) * i) n b0 b1 s).2.1).2) := by
  rw [monte_carlo_simulation_eq]
  refine ⟨by simp, by simp, ?_⟩
  intro i hi
  constructor <;> simp [List.getElem?_map, List.getElem?_range hi]

/-- Witness for C2 at N = 1, n = 2 with the stream g i = i. -/
theorem run_trial_order_witness :
    0 < 1 ∧ 1 < 2 ∧
      ((monte_carlo_simulation (fun i => (i : ℚ)) 0 1 2 1 1 1).1.length = 1 ∧
        (monte_carlo_simulation (fun i => (i : ℚ)) 0 1 2 1 1 1).2.1.length = 1 ∧
        ∀ i, i < 1 →
          (monte_carlo_simulation (fun i => (i : ℚ)) 0 1 2 1 1 1).1[i]? =
            some ((simple_linear_regression
              (generate_data (fun i => (i : ℚ)) (0 + (2 + 2) * i) 2 1 1 1).1
              (generate_data (fun i => (i : ℚ)) (0 + (2 + 2) * i) 2 1 1 1).2.1).1) ∧
          (monte_carlo_simulation (fun i => (i : ℚ)) 0 1 2 1 1 1).2.1[i]? =
            some ((simple_linear_regression
              (generate_data (fun i => (i : ℚ)) (0 + (2 + 2) * i) 2 1 1 1).1
              (generate_data (fun i => (i : ℚ)) (0 + (2 + 2) * i) 2 1 1 1).2.1).2)) :=
  ⟨by norm_num, by norm_num,
    run_trial_order (fun i => (i : ℚ)) 0 1 2 1 1 1 (by norm_num) (by norm_num)⟩

end Monte
